import Mathlib

/-!
Verification of the core subsystems of the `port` repository: the
policy/permission registry (`resource-controller/src/controller.rs`), the
per-app sandbox (`sandbox-runtime/src/runtime.rs`) and the protocol bridge
(`mcp-bridge/src/server.rs`), shallowly embedded in Lean 4.

Rust `HashMap<String, V>` values are embedded as association lists with
lookup-first semantics; `insert` replaces any previous binding of the key and
`remove` deletes all bindings of the key, so lookup agrees with `HashMap`.
`serde_json::Value` payloads are embedded as the inductive `Json` below
(numbers restricted to the integer fragment; floating-point payloads are
outside the embedding).  Rust `usize` arithmetic that can wrap
(`AtomicUsize::fetch_add`) is embedded as `Nat` arithmetic modulo `2 ^ 64`.
-/

namespace Port

/-- Embedding of `serde_json::Value` (integer-number fragment).  Objects are
lists of key/value pairs; `serde_json`'s map type cannot hold duplicate keys,
and the encoder below never emits duplicates. -/
inductive Json where
  | null : Json
  | bool (b : Bool) : Json
  | num (n : Int) : Json
  | str (s : String) : Json
  | arr (xs : List Json) : Json
  | obj (fs : List (String × Json)) : Json

/-- Association-list lookup: first binding of the key wins (agrees with
`HashMap::get` because `insertA`/`eraseA` keep at most one binding per key). -/
def lookupA {α : Type} (k : String) : List (String × α) → Option α
  | [] => none
  | (k', v) :: rest => if k' = k then some v else lookupA k rest

/-- `HashMap::remove`: drop every binding of the key. -/
def eraseA {α : Type} (k : String) : List (String × α) → List (String × α)
  | [] => []
  | (k', v) :: rest =>
    if k' = k then eraseA k rest else (k', v) :: eraseA k rest

/-- `HashMap::insert`: replace any previous binding of the key. -/
def insertA {α : Type} (k : String) (v : α) (m : List (String × α)) :
    List (String × α) :=
  (k, v) :: eraseA k m

/-! ## Wire codec (model of `serde_json` as used by runtime.rs)

`MCPRequest::into_bytes` is `serde_json::to_vec` and `MCPResponse::from_bytes`
is `serde_json::from_slice`.  The model below renders/parses the JSON text at
the level of `Char` lists (UTF-8 byte encoding of the character stream is a
bijection and is left transparent).  Numbers cover the integer fragment of
JSON; the parser does not skip whitespace because the encoder never emits
any. -/

/-- Lower-case hexadecimal digit, as emitted by `serde_json`'s `\u00XX`
escapes. -/
def hexDigit (n : Nat) : Char :=
  if n < 10 then Char.ofNat (48 + n) else Char.ofNat (87 + n)

/-- `serde_json`'s string escaping: `"` and `\` get a backslash, the named
control escapes `\b \t \n \f \r` are used where they exist, any other control
character becomes `\u00XX`, and everything else is passed through. -/
def escapeChar (c : Char) : List Char :=
  if c = '"' then ['\\', '"']
  else if c = '\\' then ['\\', '\\']
  else if c = '\x08' then ['\\', 'b']
  else if c = '\t' then ['\\', 't']
  else if c = '\n' then ['\\', 'n']
  else if c = '\x0c' then ['\\', 'f']
  else if c = '\r' then ['\\', 'r']
  else if c.toNat < 32 then
    ['\\', 'u', '0', '0', hexDigit (c.toNat / 16), hexDigit (c.toNat % 16)]
  else [c]

def escapeList : List Char → List Char
  | [] => []
  | c :: cs => escapeChar c ++ escapeList cs

def digitChar (n : Nat) : Char := Char.ofNat (48 + n)

/-- Decimal digits of a positive number, least significant first. -/
def natDigitsRev : Nat → List Char
  | 0 => []
  | n + 1 => digitChar ((n + 1) % 10) :: natDigitsRev ((n + 1) / 10)
decreasing_by exact Nat.div_lt_self (Nat.succ_pos n) (by decide)

def natDigits (n : Nat) : List Char :=
  if n = 0 then ['0'] else (natDigitsRev n).reverse

def intRender (n : Int) : List Char :=
  if n < 0 then '-' :: natDigits n.natAbs else natDigits n.natAbs

mutual

/-- JSON text of a `Json` value, exactly as `serde_json::to_vec` produces it
(compact form, no whitespace). -/
def render : Json → List Char
  | .null => "null".data
  | .bool true => "true".data
  | .bool false => "false".data
  | .num n => intRender n
  | .str s => '"' :: (escapeList s.data ++ ['"'])
  | .arr xs => '[' :: (renderElems xs ++ [']'])
  | .obj fs => '\x7b' :: (renderMembers fs ++ ['\x7d'])

def renderElems : List Json → List Char
  | [] => []
  | [x] => render x
  | x :: y :: t => render x ++ (',' :: renderElems (y :: t))

def renderMembers : List (String × Json) → List Char
  | [] => []
  | [(k, v)] => renderMember k v
  | (k, v) :: m :: t => renderMember k v ++ (',' :: renderMembers (m :: t))

def renderMember (k : String) (v : Json) : List Char :=
  '"' :: (escapeList k.data ++ ('"' :: (':' :: render v)))

end

mutual

/-- Fuel bound for the parser: an upper bound on the nesting structure of a
value, always at most the length of its rendering. -/
def jsize : Json → Nat
  | .null => 1
  | .bool _ => 1
  | .num _ => 1
  | .str _ => 1
  | .arr xs => 1 + jsizeElems xs
  | .obj fs => 1 + jsizeMembers fs

def jsizeElems : List Json → Nat
  | [] => 0
  | x :: t => 1 + jsize x + jsizeElems t

def jsizeMembers : List (String × Json) → Nat
  | [] => 0
  | (_, v) :: t => 1 + jsize v + jsizeMembers t

end

def digitVal (c : Char) : Nat := c.toNat - 48

def takeDigits : List Char → List Char × List Char
  | [] => ([], [])
  | c :: cs =>
    if c.isDigit then
      let (d, r) := takeDigits cs
      (c :: d, r)
    else ([], c :: cs)

def digitsToNat (ds : List Char) : Nat :=
  ds.foldl (fun a c => a * 10 + digitVal c) 0

def parseNat (cs : List Char) : Except String (Nat × List Char) :=
  match takeDigits cs with
  | ([], _) => .error "expected digit"
  | (ds, r) => .ok (digitsToNat ds, r)

def parseInt (cs : List Char) : Except String (Int × List Char) :=
  match cs with
  | [] => .error "expected digit"
  | c :: rest =>
    if c = '-' then
      match parseNat rest with
      | .ok (n, r) => .ok (-(n : Int), r)
      | .error e => .error e
    else
      match parseNat (c :: rest) with
      | .ok (n, r) => .ok ((n : Int), r)
      | .error e => .error e

def isHex (c : Char) : Bool :=
  decide ((48 ≤ c.toNat ∧ c.toNat ≤ 57) ∨ (97 ≤ c.toNat ∧ c.toNat ≤ 102) ∨
    (65 ≤ c.toNat ∧ c.toNat ≤ 70))

def hexVal (c : Char) : Nat :=
  if 48 ≤ c.toNat ∧ c.toNat ≤ 57 then c.toNat - 48
  else if 97 ≤ c.toNat ∧ c.toNat ≤ 102 then c.toNat - 87
  else if 65 ≤ c.toNat ∧ c.toNat ≤ 70 then c.toNat - 55
  else 0

/-- Prepend a decoded character to the result of parsing the remainder of a
string body. -/
def consFirst (c : Char) :
    Except String (List Char × List Char) →
      Except String (List Char × List Char)
  | .ok (s, r) => .ok (c :: s, r)
  | .error m => .error m

/-- Parse a JSON string body (the opening quote already consumed), undoing
`escapeChar`.  Surrogate pairing is not modelled: the encoder only emits
`\u00XX` escapes below `0x20`. -/
def parseStringBody : List Char → Except String (List Char × List Char)
  | [] => .error "unterminated string"
  | c :: rest =>
    if c = '"' then .ok ([], rest)
    else if c = '\\' then
      match rest with
      | [] => .error "bad escape"
      | e :: rest2 =>
        if e = '"' || e = '\\' || e = '/' then
          consFirst e (parseStringBody rest2)
        else if e = 'b' then consFirst '\x08' (parseStringBody rest2)
        else if e = 't' then consFirst '\t' (parseStringBody rest2)
        else if e = 'n' then consFirst '\n' (parseStringBody rest2)
        else if e = 'f' then consFirst '\x0c' (parseStringBody rest2)
        else if e = 'r' then consFirst '\r' (parseStringBody rest2)
        else if e = 'u' then
          match rest2 with
          | h1 :: h2 :: h3 :: h4 :: rest3 =>
            if isHex h1 && isHex h2 && isHex h3 && isHex h4 then
              consFirst (Char.ofNat
                (((hexVal h1 * 16 + hexVal h2) * 16 + hexVal h3) * 16 +
                  hexVal h4)) (parseStringBody rest3)
            else .error "bad unicode escape"
          | _ => .error "bad unicode escape"
        else .error "unknown escape"
    else consFirst c (parseStringBody rest)

mutual

/-- Recursive-descent JSON value parser (model of `serde_json::from_slice`),
with explicit fuel for the nesting recursion. -/
def parseValue : Nat → List Char → Except String (Json × List Char)
  | 0, _ => .error "recursion limit exceeded"
  | _ + 1, [] => .error "unexpected end of input"
  | fuel + 1, c :: rest =>
    if c = 'n' then
      match rest with
      | 'u' :: 'l' :: 'l' :: r => .ok (.null, r)
      | _ => .error "invalid literal"
    else if c = 't' then
      match rest with
      | 'r' :: 'u' :: 'e' :: r => .ok (.bool true, r)
      | _ => .error "invalid literal"
    else if c = 'f' then
      match rest with
      | 'a' :: 'l' :: 's' :: 'e' :: r => .ok (.bool false, r)
      | _ => .error "invalid literal"
    else if c = '"' then
      match parseStringBody rest with
      | .ok (s, r) => .ok (.str (String.mk s), r)
      | .error m => .error m
    else if c = '[' then
      match rest with
      | ']' :: r => .ok (.arr [], r)
      | _ =>
        match parseElems fuel rest with
        | .ok (xs, r) => .ok (.arr xs, r)
        | .error m => .error m
    else if c = '\x7b' then
      match rest with
      | '\x7d' :: r => .ok (.obj [], r)
      | _ =>
        match parseMembers fuel rest with
        | .ok (fs, r) => .ok (.obj fs, r)
        | .error m => .error m
    else if c = '-' || c.isDigit then
      match parseInt (c :: rest) with
      | .ok (n, r) => .ok (.num n, r)
      | .error m => .error m
    else .error "expected value"

def parseElems : Nat → List Char → Except String (List Json × List Char)
  | 0, _ => .error "recursion limit exceeded"
  | fuel + 1, cs =>
    match parseValue fuel cs with
    | .error m => .error m
    | .ok (v, r) =>
      match r with
      | ',' :: r2 =>
        match parseElems fuel r2 with
        | .ok (vs, r3) => .ok (v :: vs, r3)
        | .error m => .error m
      | ']' :: r2 => .ok ([v], r2)
      | _ => .error "expected comma or bracket"

def parseMembers :
    Nat → List Char → Except String (List (String × Json) × List Char)
  | 0, _ => .error "recursion limit exceeded"
  | fuel + 1, cs =>
    match cs with
    | '"' :: cs2 =>
      match parseStringBody cs2 with
      | .error m => .error m
      | .ok (k, r) =>
        match r with
        | ':' :: r2 =>
          match parseValue fuel r2 with
          | .error m => .error m
          | .ok (v, r3) =>
            match r3 with
            | ',' :: r4 =>
              match parseMembers fuel r4 with
              | .ok (fs, r5) => .ok ((String.mk k, v) :: fs, r5)
              | .error m => .error m
            | '\x7d' :: r4 => .ok ([(String.mk k, v)], r4)
            | _ => .error "expected comma or brace"
        | _ => .error "expected colon"
    | _ => .error "expected string key"

end

/-- Value of a digit list, least significant digit first (the reverse
reading used to relate `natDigitsRev` and `digitsToNat`). -/
def valRev : List Char → Nat
  | [] => 0
  | c :: cs => digitVal c + 10 * valRev cs

/-- The followers a rendered JSON value can have inside a document: nothing,
or a separator/closer.  Guarantees number parsing stops exactly at the end of
the rendered number. -/
def Delim : List Char → Prop
  | [] => True
  | c :: _ => c = ',' ∨ c = ']' ∨ c = '\x7d'

/-- The next character (if any) is not a digit. -/
def NoDigitHead : List Char → Prop
  | [] => True
  | c :: _ => c.isDigit = false

/-- `MCPRequest` (runtime.rs lines 127-133). -/
structure MCPRequest where
  app_id : String
  protocol : String
  action : String
  data : Json

/-- `MCPResponse` (runtime.rs lines 135-140). -/
structure MCPResponse where
  success : Bool
  error : Option String
  data : Option Json

/-- The JSON document `serde_json::to_vec(self)` produces for an
`MCPRequest`: fields in declaration order. -/
def MCPRequest.toJson (r : MCPRequest) : Json :=
  .obj [("app_id", .str r.app_id), ("protocol", .str r.protocol),
        ("action", .str r.action), ("data", r.data)]

/-- `MCPRequest::into_bytes` (runtime.rs lines 143-145), i.e.
`serde_json::to_vec(self)`; on these values serialization cannot fail, so the
`Result` is always `Ok`. -/
def MCPRequest.into_bytes (r : MCPRequest) : Except String (List Char) :=
  .ok (render r.toJson)

/-- Modelled from the spec: the decoding half of the `MCPRequest` wire codec.
The bridge-side decoder is not part of src/ (src/ only contains the encoder
`MCPRequest::into_bytes`); per the spec the value must "round-trip through a
byte encoding", so the decoder mirrors `serde_json::from_slice` exactly as
`MCPResponse::from_bytes` (runtime.rs lines 149-151) does for responses:
parse the document, require a complete parse, and read the four derived
fields. -/
def MCPRequest.from_bytes (bytes : List Char) : Except String MCPRequest :=
  match parseValue (bytes.length + 1) bytes with
  | .error m => .error m
  | .ok (v, rest) =>
    match rest with
    | [] =>
      match v with
      | .obj fs =>
        match lookupA "app_id" fs, lookupA "protocol" fs,
            lookupA "action" fs, lookupA "data" fs with
        | some (.str a), some (.str p), some (.str act), some d =>
          .ok { app_id := a, protocol := p, action := act, data := d }
        | _, _, _, _ => .error "invalid MCP request"
      | _ => .error "invalid MCP request"
    | _ => .error "trailing characters"

/-- `MCPResponse::from_bytes` (runtime.rs lines 148-152), i.e.
`serde_json::from_slice`; optional fields accept `null` (and absence) as
`none`, as serde's derived `Option` deserializer does. -/
def MCPResponse.from_bytes (bytes : List Char) : Except String MCPResponse :=
  match parseValue (bytes.length + 1) bytes with
  | .error m => .error m
  | .ok (v, rest) =>
    match rest with
    | [] =>
      match v with
      | .obj fs =>
        match lookupA "success" fs with
        | some (.bool b) =>
          let err : Except String (Option String) :=
            match lookupA "error" fs with
            | none => .ok none
            | some .null => .ok none
            | some (.str s) => .ok (some s)
            | some _ => .error "invalid MCP response"
          match err with
          | .error m => .error m
          | .ok e =>
            let d : Option Json :=
              match lookupA "data" fs with
              | none => none
              | some .null => none
              | some w => some w
            .ok { success := b, error := e, data := d }
        | _ => .error "invalid MCP response"
      | _ => .error "invalid MCP response"
    | _ => .error "trailing characters"

/-! ## Policy registry (`ResourceController`, controller.rs) -/

/-- `ResourcePolicy` (controller.rs lines 34-41); `timeout: u64` is stored but
never computed with, so it is embedded as a plain `Nat`. -/
structure ResourcePolicy where
  name : String
  description : String
  permissions : List String
  restrictions : List String
  timeout : Nat

/-- `ResourceRequest` (controller.rs lines 13-19). -/
structure ResourceRequest where
  app_id : String
  resource : String
  action : String
  data : Json

/-- `ResourceResponse` (controller.rs lines 21-26). -/
structure ResourceResponse where
  success : Bool
  error : Option String
  data : Option Json

/-- `ResourceController` (controller.rs lines 28-32).  The `RwLock`s guard the
two maps; the embedding is the state they protect.  `next_id` is declared in
the source but never used by any operation. -/
structure ResourceController where
  permissions : List (String × List String)
  policies : List (String × ResourcePolicy)
  next_id : Nat

/-- `ResourceController::new` (controller.rs lines 44-50). -/
def ResourceController.new : ResourceController :=
  { permissions := [], policies := [], next_id := 0 }

/-- `ResourceController::register_policy` (controller.rs lines 52-55). -/
def ResourceController.register_policy (c : ResourceController)
    (policy : ResourcePolicy) : ResourceController :=
  { c with policies := insertA policy.name policy c.policies }

/-- `ResourceController::grant_permissions` (controller.rs lines 57-60):
`perms.insert(app_id, permissions)` replaces the app's whole set. -/
def ResourceController.grant_permissions (c : ResourceController)
    (app_id : String) (permissions : List String) : ResourceController :=
  { c with permissions := insertA app_id permissions c.permissions }

/-- `ResourceController::check_permission` (controller.rs lines 62-69). -/
def ResourceController.check_permission (c : ResourceController)
    (app_id : String) (permission : String) : Bool :=
  match lookupA app_id c.permissions with
  | some app_perms => app_perms.contains permission
  | none => false

/-- `ResourceController::handle_request` (controller.rs lines 71-86).  The
Rust `Result` is the `Except` layer; a permission denial is an `Ok` value. -/
def ResourceController.handle_request (c : ResourceController)
    (request : ResourceRequest) : Except String ResourceResponse :=
  if c.check_permission request.app_id request.resource = false then
    .ok { success := false
          error := some ("Permission denied: " ++ request.resource)
          data := none }
  else
    .ok { success := true, error := none, data := some request.data }

/-- `ResourceController::apply_policy` (controller.rs lines 88-96).  The
method mutates `self` only on the success path; the embedding returns the
resulting state alongside the `Result` so the error path visibly leaves the
state unchanged. -/
def ResourceController.apply_policy (c : ResourceController)
    (app_id : String) (policy_name : String) :
    Except String Unit × ResourceController :=
  match lookupA policy_name c.policies with
  | some policy => (.ok (), c.grant_permissions app_id policy.permissions)
  | none => (.error ("Policy not found: " ++ policy_name), c)

/-- `ResourceController::revoke_permissions` (controller.rs lines 98-101). -/
def ResourceController.revoke_permissions (c : ResourceController)
    (app_id : String) : ResourceController :=
  { c with permissions := eraseA app_id c.permissions }

/-- `ResourceController::get_app_permissions` (controller.rs lines 103-108). -/
def ResourceController.get_app_permissions (c : ResourceController)
    (app_id : String) : List String :=
  match lookupA app_id c.permissions with
  | some p => p
  | none => []

/-! ## Sandbox (`PWASandbox`, runtime.rs)

The sandbox methods mutate `self.state` behind a mutex; the embedding passes
`SandboxState` explicitly and returns the `Result` together with the
resulting state. -/

/-- `SandboxConfig` (runtime.rs lines 20-27): the static capability flags. -/
structure SandboxConfig where
  network : Bool
  storage : Bool
  notifications : Bool
  system : Bool
  mcp : Bool

/-- `PWAConfig` (runtime.rs lines 12-18); `permissions` is the app's declared
(manifest) permission surface. -/
structure PWAConfig where
  name : String
  url : String
  permissions : List String
  sandbox : SandboxConfig

/-- `SandboxState` (runtime.rs lines 36-42); `url: Option<Url>` is embedded
as the parsed string. -/
structure SandboxState where
  url : Option String
  permissions : List (String × Bool)
  storage : List (String × String)
  notifications : List String

/-- `SandboxState::default()`. -/
def SandboxState.init : SandboxState :=
  { url := none, permissions := [], storage := [], notifications := [] }

/-- Model of the external `url` crate's `Url.parse` used at runtime.rs
line 61: accepts exactly the strings with a scheme separator.  No claim
depends on this predicate. -/
def url_parse (s : String) : Option String :=
  if 2 ≤ (s.splitOn "://").length then some s else none

/-- `PWASandbox::load_url` (runtime.rs lines 59-63). -/
def PWASandbox.load_url (cfg : PWAConfig) (st : SandboxState) (u : String) :
    Except String Unit × SandboxState :=
  match url_parse u with
  | some parsed => (.ok (), { st with url := some parsed })
  | none => (.error "invalid url", st)

/-- `PWASandbox::request_permission` (runtime.rs lines 65-81).  Line 66
writes `self.config.sandbox.permissions`, but `SandboxConfig` declares no
`permissions` field; the declared permission surface is
`PWAConfig.permissions` (the spec's "static manifest"), which the embedding
uses.  Note the method checks the registry on every call and only ever
writes the cache; it never reads `state.permissions`. -/
def PWASandbox.request_permission (cfg : PWAConfig) (rc : ResourceController)
    (st : SandboxState) (permission : String) :
    Except String Bool × SandboxState :=
  if cfg.permissions.contains permission = false then
    (.ok false, st)
  else
    let result := rc.check_permission cfg.name permission
    if result then
      (.ok result,
        { st with permissions := insertA permission true st.permissions })
    else
      (.ok result, st)

/-- `PWASandbox::store_data` (runtime.rs lines 83-91). -/
def PWASandbox.store_data (cfg : PWAConfig) (st : SandboxState)
    (key value : String) : Except String Unit × SandboxState :=
  if cfg.sandbox.storage = false then
    (.error "Storage permission denied", st)
  else
    (.ok (), { st with storage := insertA key value st.storage })

/-- `PWASandbox::get_data` (runtime.rs lines 93-100). -/
def PWASandbox.get_data (cfg : PWAConfig) (st : SandboxState) (key : String) :
    Except String (Option String) × SandboxState :=
  if cfg.sandbox.storage = false then
    (.error "Storage permission denied", st)
  else
    (.ok (lookupA key st.storage), st)

/-- `PWASandbox::send_notification` (runtime.rs lines 102-110). -/
def PWASandbox.send_notification (cfg : PWAConfig) (st : SandboxState)
    (message : String) : Except String Unit × SandboxState :=
  if cfg.sandbox.notifications = false then
    (.error "Notifications permission denied", st)
  else
    (.ok (), { st with notifications := st.notifications ++ [message] })

/-- `PWASandbox::mcp_request` (runtime.rs lines 112-119); the `MCPClient`
round trip is the function argument `send`. -/
def PWASandbox.mcp_request (cfg : PWAConfig)
    (send : List Char → Except String (List Char)) (st : SandboxState)
    (request : MCPRequest) : Except String MCPResponse × SandboxState :=
  if cfg.sandbox.mcp = false then
    (.error "MCP permission denied", st)
  else
    match request.into_bytes with
    | .error e => (.error e, st)
    | .ok bs =>
      match send bs with
      | .error e => (.error e, st)
      | .ok resp => (MCPResponse.from_bytes resp, st)

/-- `PWASandbox::shutdown` (runtime.rs lines 121-124): the body is a `TODO`
comment and `Ok(())` — a no-op. -/
def PWASandbox.shutdown (cfg : PWAConfig) (st : SandboxState) :
    Except String Unit × SandboxState :=
  (.ok (), st)

/-- One sandbox operation, for reasoning about arbitrary operation
sequences.  `request_permission` carries the registry state observed by that
call; `mcp_request` carries the client round trip. -/
inductive SandboxOp where
  | load_url (u : String)
  | request_permission (rc : ResourceController) (p : String)
  | store_data (k v : String)
  | get_data (k : String)
  | send_notification (m : String)
  | mcp_request (send : List Char → Except String (List Char))
      (req : MCPRequest)
  | shutdown

/-- The state reached after one sandbox operation. -/
def sandboxStep (cfg : PWAConfig) (st : SandboxState) :
    SandboxOp → SandboxState
  | .load_url u => (PWASandbox.load_url cfg st u).2
  | .request_permission rc p => (PWASandbox.request_permission cfg rc st p).2
  | .store_data k v => (PWASandbox.store_data cfg st k v).2
  | .get_data k => (PWASandbox.get_data cfg st k).2
  | .send_notification m => (PWASandbox.send_notification cfg st m).2
  | .mcp_request sd req => (PWASandbox.mcp_request cfg sd st req).2
  | .shutdown => (PWASandbox.shutdown cfg st).2

/-- The state reached after a sequence of sandbox operations. -/
def sandboxRun (cfg : PWAConfig) (st : SandboxState) :
    List SandboxOp → SandboxState
  | [] => st
  | op :: ops => sandboxRun cfg (sandboxStep cfg st op) ops

/-! ## Protocol bridge (`MCPBridge`, server.rs) -/

/-- `usize` wraps at `2 ^ 64` on the 64-bit targets this desktop app builds
for; `AtomicUsize::fetch_add` wraps silently. -/
def USIZE_MOD : Nat := 2 ^ 64

def eraseConn (id : Nat) : List Nat → List Nat
  | [] => []
  | c :: rest => if c = id then eraseConn id rest else c :: eraseConn id rest

/-- `MCPBridge` (server.rs lines 24-29): the connection table is embedded by
its key set (the `Sender` endpoints carry no information the claims
mention). -/
structure MCPBridge where
  connections : List Nat
  next_connection_id : Nat

/-- `MCPBridge::new` (server.rs lines 32-40). -/
def MCPBridge.new : MCPBridge := { connections := [], next_connection_id := 0 }

/-- Events of the accept loop (server.rs lines 51-79): an accepted
connection, or a per-connection task finishing (zero-length read or error)
and removing its record. -/
inductive BridgeEvent where
  | accept
  | disconnect (id : Nat)

/-- One event of the accept loop.  On accept (lines 53-57),
`next_connection_id.fetch_add(1, SeqCst)` returns the previous counter value
as the new identifier, wrapping at `2 ^ 64`, and the connection is recorded;
on disconnect (lines 77-78) the record is removed.  Returns the identifier
allocated by an accept. -/
def bridgeStep (b : MCPBridge) : BridgeEvent → MCPBridge × Option Nat
  | .accept =>
    let id := b.next_connection_id
    ({ connections := id :: eraseConn id b.connections,
       next_connection_id := (id + 1) % USIZE_MOD }, some id)
  | .disconnect id =>
    ({ b with connections := eraseConn id b.connections }, none)

/-- The connection identifiers allocated over an event sequence, in
allocation order. -/
def allocatedIds (b : MCPBridge) : List BridgeEvent → List Nat
  | [] => []
  | e :: evs =>
    match bridgeStep b e with
    | (b', some id) => id :: allocatedIds b' evs
    | (b', none) => allocatedIds b' evs

def countAccepts : List BridgeEvent → Nat
  | [] => 0
  | .accept :: evs => countAccepts evs + 1
  | .disconnect _ :: evs => countAccepts evs

/-- A concrete sandbox configuration: every capability flag enabled and a
declared (manifest) permission `"network"`. -/
def cfgA : PWAConfig :=
  { name := "app1", url := "https://example.com", permissions := ["network"],
    sandbox := { network := true, storage := true, notifications := true,
                 system := true, mcp := true } }

/-- A concrete registry granting `"network"` to `"app1"`. -/
def registryA : ResourceController :=
  ResourceController.new.grant_permissions "app1" ["network"]

/-! ## Association-list lemmas -/

theorem lookupA_eraseA_self {α : Type} (k : String) (m : List (String × α)) :
    lookupA k (eraseA k m) = none := by
  induction m with
  | nil => rfl
  | cons e rest ih =>
    obtain ⟨a, b⟩ := e
    by_cases h : a = k
    · simpa [eraseA, h] using ih
    · simpa [eraseA, h, lookupA] using ih

theorem lookupA_eraseA {α : Type} (k k' : String) (m : List (String × α))
    (hne : k' ≠ k) : lookupA k (eraseA k' m) = lookupA k m := by
  induction m with
  | nil => rfl
  | cons e rest ih =>
    obtain ⟨a, b⟩ := e
    by_cases h : a = k'
    · have hak : ¬ a = k := by rw [h]; exact hne
      simp [eraseA, h, lookupA, hak, ih, hne]
    · simp only [eraseA, if_neg h, lookupA]
      by_cases h2 : a = k
      · simp [h2]
      · simp [h2, ih]

theorem lookupA_insertA_self {α : Type} (k : String) (v : α)
    (m : List (String × α)) : lookupA k (insertA k v m) = some v := by
  simp [lookupA, insertA]

theorem lookupA_insertA_ne {α : Type} (k k' : String) (v : α)
    (m : List (String × α)) (hne : k' ≠ k) :
    lookupA k (insertA k' v m) = lookupA k m := by
  simp only [insertA, lookupA, if_neg hne]
  exact lookupA_eraseA k k' m hne

/-! ## C1: closed-by-default permission checks -/

/-- C1.  For every app `a` and permission `p`, if `p` was never granted to
`a` — no grant set exists for `a`, or `p` is absent from it —
`check_permission(a, p)` returns `false`. -/
theorem check_permission_closed_by_default (c : ResourceController)
    (a p : String)
    (h : lookupA a c.permissions = none ∨
      ∃ ps, lookupA a c.permissions = some ps ∧ ps.contains p = false) :
    c.check_permission a p = false := by
  unfold ResourceController.check_permission
  rcases h with h | ⟨ps, hps, hmem⟩
  · rw [h]
  · rw [hps]
    exact hmem

/-- Witness for C1 at a concrete input: a fresh controller has no grant set
for `"app1"`, and the check is `false`. -/
theorem check_permission_closed_by_default_witness :
    ResourceController.new.check_permission "app1" "network" = false :=
  check_permission_closed_by_default ResourceController.new "app1" "network"
    (Or.inl rfl)

/-! ## C2: grants replace and are exactly reflected by checks -/

/-- C2.  After `grant_permissions(a, S)`, `check_permission(a, x)` is `true`
iff `x ∈ S`, for any prior controller state — the grant replaces `a`'s whole
previous permission set, it does not merge. -/
theorem grant_then_check (c : ResourceController) (a : String)
    (S : List String) (x : String) :
    ((c.grant_permissions a S).check_permission a x = true) ↔ x ∈ S := by
  unfold ResourceController.check_permission ResourceController.grant_permissions
  rw [show (({ c with permissions := insertA a S c.permissions } :
      ResourceController).permissions) = insertA a S c.permissions from rfl,
    lookupA_insertA_self]
  exact List.elem_iff

/-! ## C3: applying an unregistered policy fails and changes nothing -/

/-- C3.  For every app `a` and unregistered policy name, `apply_policy`
returns the `PolicyNotFound` error (`"Policy not found: <name>"`) and leaves
the controller state — in particular the whole permissions map — unchanged. -/
theorem apply_policy_not_found (c : ResourceController)
    (a pname : String) (h : lookupA pname c.policies = none) :
    c.apply_policy a pname =
      (Except.error ("Policy not found: " ++ pname), c) := by
  unfold ResourceController.apply_policy
  rw [h]

/-- Witness for C3: a fresh controller has no `"net-basic"` policy, and
applying it errors while leaving the state intact. -/
theorem apply_policy_not_found_witness :
    ResourceController.new.apply_policy "app1" "net-basic" =
      (Except.error ("Policy not found: " ++ "net-basic"),
        ResourceController.new) :=
  apply_policy_not_found ResourceController.new "app1" "net-basic" rfl

/-! ## C4: denial is a structured response, not a `Result` failure -/

/-- C4.  For every request whose resource is not in the requesting app's
grant set, `handle_request` returns `Ok` carrying a structured response with
`success = false`, the interpolated `"Permission denied: <resource>"` error,
and no data — never an `Err`. -/
theorem handle_request_denied (c : ResourceController)
    (request : ResourceRequest)
    (h : c.check_permission request.app_id request.resource = false) :
    c.handle_request request =
      Except.ok { success := false
                  error := some ("Permission denied: " ++ request.resource)
                  data := none } := by
  unfold ResourceController.handle_request
  rw [h]
  simp

/-- Witness for C4: a fresh controller denies a concrete storage request with
the structured response. -/
theorem handle_request_denied_witness :
    ResourceController.new.handle_request
        { app_id := "app1", resource := "storage", action := "read",
          data := Json.null } =
      Except.ok { success := false
                  error := some ("Permission denied: " ++ "storage")
                  data := none } :=
  handle_request_denied ResourceController.new
    { app_id := "app1", resource := "storage", action := "read",
      data := Json.null } rfl

/-! ## C9: a successful policy application replaces the grant set -/

/-- C9.  For every app `a` and registered policy, `apply_policy` succeeds and
afterwards `check_permission(a, p)` agrees exactly with membership of `p` in
the policy's permission list, whatever `a` held before. -/
theorem apply_policy_found (c : ResourceController) (a pname p : String)
    (pol : ResourcePolicy) (h : lookupA pname c.policies = some pol) :
    (c.apply_policy a pname).1 = Except.ok () ∧
      ((c.apply_policy a pname).2.check_permission a p =
        pol.permissions.contains p) := by
  unfold ResourceController.apply_policy
  rw [h]
  refine ⟨rfl, ?_⟩
  show (c.grant_permissions a pol.permissions).check_permission a p = _
  unfold ResourceController.check_permission
    ResourceController.grant_permissions
  rw [show (({ c with permissions := insertA a pol.permissions c.permissions } :
      ResourceController).permissions) =
      insertA a pol.permissions c.permissions from rfl,
    lookupA_insertA_self]

/-- Witness for C9, the spec's own scenario: after registering
`net-basic = \x7bpermissions: ["network"]\x7d` and applying it to `"app1"`,
`check_permission("app1", "network")` is `true` and
`check_permission("app1", "storage")` is `false`. -/
theorem apply_policy_found_witness :
    ((ResourceController.new.register_policy
        { name := "net-basic", description := "basic networking",
          permissions := ["network"], restrictions := [],
          timeout := 30 }).apply_policy "app1" "net-basic").1 =
      Except.ok () ∧
    ((ResourceController.new.register_policy
        { name := "net-basic", description := "basic networking",
          permissions := ["network"], restrictions := [],
          timeout := 30 }).apply_policy "app1" "net-basic").2.check_permission
        "app1" "network" = true ∧
    ((ResourceController.new.register_policy
        { name := "net-basic", description := "basic networking",
          permissions := ["network"], restrictions := [],
          timeout := 30 }).apply_policy "app1" "net-basic").2.check_permission
        "app1" "storage" = false := by
  have h1 := apply_policy_found
    (ResourceController.new.register_policy
      { name := "net-basic", description := "basic networking",
        permissions := ["network"], restrictions := [], timeout := 30 })
    "app1" "net-basic" "network"
    { name := "net-basic", description := "basic networking",
      permissions := ["network"], restrictions := [], timeout := 30 } rfl
  have h2 := apply_policy_found
    (ResourceController.new.register_policy
      { name := "net-basic", description := "basic networking",
        permissions := ["network"], restrictions := [], timeout := 30 })
    "app1" "net-basic" "storage"
    { name := "net-basic", description := "basic networking",
      permissions := ["network"], restrictions := [], timeout := 30 } rfl
  exact ⟨h1.1, by rw [h1.2]; rfl, by rw [h2.2]; rfl⟩

/-! ## C5: the permission-decision cache is write-only -/

/-- Closed form of `request_permission`: the returned decision is the
manifest check conjoined with the registry's *current* answer — it does
not depend on the cache `st.permissions` — and the cache is written
(with `true`) exactly when that answer is `true`. -/
theorem request_permission_spec (cfg : PWAConfig) (rc : ResourceController)
    (st : SandboxState) (p : String) :
    PWASandbox.request_permission cfg rc st p =
      (Except.ok (cfg.permissions.contains p &&
          rc.check_permission cfg.name p),
        if cfg.permissions.contains p && rc.check_permission cfg.name p then
          { st with permissions := insertA p true st.permissions }
        else st) := by
  unfold PWASandbox.request_permission
  cases hc : cfg.permissions.contains p with
  | false => simp [hc]
  | true =>
    cases hr : rc.check_permission cfg.name p with
    | false => simp [hc, hr]
    | true => simp [hc, hr]

/-- C5 is false on the code: after `request_permission("network")` returned
`true` and cached the decision, a later `request_permission("network")` is
*not* answered from the cache — it consults the registry again, and once the
registry grant is revoked it returns `false` even though the sandbox-local
cache still holds `true`. -/
theorem request_permission_reads_registry_not_cache :
    (PWASandbox.request_permission cfgA registryA SandboxState.init
        "network").1 = Except.ok true ∧
    lookupA "network"
        (PWASandbox.request_permission cfgA registryA SandboxState.init
          "network").2.permissions = some true ∧
    (PWASandbox.request_permission cfgA (registryA.revoke_permissions "app1")
        (PWASandbox.request_permission cfgA registryA SandboxState.init
          "network").2 "network").1 = Except.ok false :=
  ⟨rfl, rfl, rfl⟩

/-- C5 amended.  For every manifest-declared permission `p`, a
`request_permission(p)` that returns `true` stores `true` for `p` in the
sandbox-local cache; but the cache is never read back: every call —
including every subsequent `request_permission(p)` — consults the Policy
Registry again and returns the registry's current answer, regardless of the
cache contents. -/
theorem request_permission_caches_but_always_consults (cfg : PWAConfig)
    (rc : ResourceController) (st : SandboxState) (p : String)
    (hdecl : cfg.permissions.contains p = true) :
    (PWASandbox.request_permission cfg rc st p).1 =
      Except.ok (rc.check_permission cfg.name p) ∧
    ((rc.check_permission cfg.name p = true →
        lookupA p
          (PWASandbox.request_permission cfg rc st p).2.permissions =
          some true) ∧
      (rc.check_permission cfg.name p = false →
        (PWASandbox.request_permission cfg rc st p).2 = st)) := by
  rw [request_permission_spec cfg rc st p]
  refine ⟨by rw [hdecl, Bool.true_and], ?_, ?_⟩
  · intro htrue
    rw [hdecl, htrue]
    simpa using lookupA_insertA_self p true st.permissions
  · intro hfalse
    rw [hdecl, hfalse]
    rfl

/-- Witness for the amended C5 at a concrete input: `"network"` is declared
in the manifest, the registry grants it, the call returns `true` and the
cache afterwards holds `true`. -/
theorem request_permission_caches_but_always_consults_witness :
    cfgA.permissions.contains "network" = true ∧
    (PWASandbox.request_permission cfgA registryA SandboxState.init
        "network").1 = Except.ok (registryA.check_permission "app1" "network") ∧
    lookupA "network"
        (PWASandbox.request_permission cfgA registryA SandboxState.init
          "network").2.permissions = some true := by
  have h := request_permission_caches_but_always_consults cfgA registryA
    SandboxState.init "network" rfl
  exact ⟨rfl, h.1, h.2.1 rfl⟩

/-! ## C6: shutdown is required to be terminal, but the code no-ops -/

/-- C6 fails on the code: `shutdown` (runtime.rs lines 121-124) is a `TODO`
no-op that returns `Ok(())` and leaves the state untouched, and every
operation afterwards behaves exactly as before shutdown — here `store_data`,
`get_data` and `send_notification` all still succeed on a sandbox that was
shut down, where the claim (and the spec's required hardening) demands they
fail. -/
theorem shutdown_not_terminal :
    PWASandbox.shutdown cfgA SandboxState.init =
      (Except.ok (), SandboxState.init) ∧
    (PWASandbox.store_data cfgA
        (PWASandbox.shutdown cfgA SandboxState.init).2 "k" "v").1 =
      Except.ok () ∧
    (PWASandbox.get_data cfgA
        (PWASandbox.shutdown cfgA SandboxState.init).2 "k").1 =
      Except.ok none ∧
    (PWASandbox.send_notification cfgA
        (PWASandbox.shutdown cfgA SandboxState.init).2 "hello").1 =
      Except.ok () ∧
    (PWASandbox.request_permission cfgA registryA
        (PWASandbox.shutdown cfgA SandboxState.init).2 "network").1 =
      Except.ok true :=
  ⟨rfl, rfl, rfl, rfl, rfl⟩

/-! ## C10: every cache entry ever present maps to `true` -/

theorem allTrue_eraseA (k : String) (m : List (String × Bool))
    (h : m.all (fun e => e.2) = true) :
    (eraseA k m).all (fun e => e.2) = true := by
  induction m with
  | nil => rfl
  | cons e rest ih =>
    obtain ⟨a, b⟩ := e
    simp only [List.all_cons, Bool.and_eq_true] at h
    by_cases hk : a = k
    · simpa [eraseA, hk] using ih h.2
    · simpa [eraseA, hk, List.all_cons, h.1] using ih h.2

theorem allTrue_step (cfg : PWAConfig) (st : SandboxState) (op : SandboxOp)
    (h : st.permissions.all (fun e => e.2) = true) :
    (sandboxStep cfg st op).permissions.all (fun e => e.2) = true := by
  cases op with
  | load_url u =>
    show ((PWASandbox.load_url cfg st u).2.permissions.all
      (fun e => e.2)) = true
    unfold PWASandbox.load_url
    cases hu : url_parse u with
    | none => exact h
    | some parsed => exact h
  | request_permission rc p =>
    show ((PWASandbox.request_permission cfg rc st p).2.permissions.all
      (fun e => e.2)) = true
    rw [request_permission_spec cfg rc st p]
    cases hb : cfg.permissions.contains p && rc.check_permission cfg.name p
    · exact h
    · show ((insertA p true st.permissions).all (fun e => e.2)) = true
      have he := allTrue_eraseA p st.permissions h
      show (((p, true) :: eraseA p st.permissions).all (fun e => e.2)) = true
      rw [List.all_cons, he]
      rfl
  | store_data k v =>
    show ((PWASandbox.store_data cfg st k v).2.permissions.all
      (fun e => e.2)) = true
    unfold PWASandbox.store_data
    cases cfg.sandbox.storage <;> exact h
  | get_data k =>
    show ((PWASandbox.get_data cfg st k).2.permissions.all
      (fun e => e.2)) = true
    unfold PWASandbox.get_data
    cases cfg.sandbox.storage <;> exact h
  | send_notification m =>
    show ((PWASandbox.send_notification cfg st m).2.permissions.all
      (fun e => e.2)) = true
    unfold PWASandbox.send_notification
    cases cfg.sandbox.notifications <;> exact h
  | mcp_request sd req =>
    show ((PWASandbox.mcp_request cfg sd st req).2.permissions.all
      (fun e => e.2)) = true
    unfold PWASandbox.mcp_request
    cases cfg.sandbox.mcp
    · exact h
    · cases hib : req.into_bytes with
      | error e => exact h
      | ok bs =>
        show (((match sd bs with
            | Except.error err =>
              ((Except.error err : Except String MCPResponse), st)
            | Except.ok resp => (MCPResponse.from_bytes resp, st)) :
            Except String MCPResponse × SandboxState).2.permissions.all
          (fun e => e.2)) = true
        cases sd bs with
        | error err => exact h
        | ok resp => exact h
  | shutdown => exact h

theorem allTrue_run (cfg : PWAConfig) (ops : List SandboxOp)
    (st : SandboxState) (h : st.permissions.all (fun e => e.2) = true) :
    (sandboxRun cfg st ops).permissions.all (fun e => e.2) = true := by
  induction ops generalizing st with
  | nil => exact h
  | cons op ops ih =>
    exact ih (sandboxStep cfg st op) (allTrue_step cfg st op h)

/-- C10.  After every sequence of sandbox operations starting from the fresh
sandbox state, every entry of the permission-decision cache maps to `true`:
`request_permission` writes a cache entry only when the registry answered
`true`, and no operation ever writes `false`. -/
theorem sandbox_cache_only_true (cfg : PWAConfig) (ops : List SandboxOp) :
    ((sandboxRun cfg SandboxState.init ops).permissions.all
      (fun e => e.2)) = true :=
  allTrue_run cfg ops SandboxState.init rfl

/-! ## C7: connection identifiers -/

theorem usize_mod_pos : 0 < USIZE_MOD := by
  unfold USIZE_MOD
  exact Nat.pos_pow_of_pos 64 (by omega)

theorem allocatedIds_closed_form (evs : List BridgeEvent) :
    ∀ (l : List Nat) (c : Nat), c < USIZE_MOD →
      allocatedIds { connections := l, next_connection_id := c } evs =
        (List.range (countAccepts evs)).map (fun i => (c + i) % USIZE_MOD) := by
  induction evs with
  | nil => intro l c hc; rfl
  | cons e evs ih =>
    intro l c hc
    cases e with
    | accept =>
      have hc' : (c + 1) % USIZE_MOD < USIZE_MOD := Nat.mod_lt _ usize_mod_pos
      show c :: allocatedIds
          { connections := c :: eraseConn c l,
            next_connection_id := (c + 1) % USIZE_MOD } evs = _
      rw [ih (c :: eraseConn c l) ((c + 1) % USIZE_MOD) hc']
      show _ = (List.range (countAccepts evs + 1)).map
        (fun i => (c + i) % USIZE_MOD)
      rw [List.range_succ_eq_map, List.map_cons, List.map_map]
      have h0 : (c + 0) % USIZE_MOD = c := by
        rw [Nat.add_zero]; exact Nat.mod_eq_of_lt hc
      rw [h0]
      have hfun : (fun i => ((c + 1) % USIZE_MOD + i) % USIZE_MOD) =
          ((fun i => (c + i) % USIZE_MOD) ∘ Nat.succ) := by
        funext i
        show ((c + 1) % USIZE_MOD + i) % USIZE_MOD =
          (c + Nat.succ i) % USIZE_MOD
        rw [Nat.mod_add_mod]
        congr 1
        omega
      rw [hfun]
    | disconnect i =>
      show allocatedIds
          { connections := eraseConn i l, next_connection_id := c } evs = _
      exact ih (eraseConn i l) c hc

theorem countAccepts_replicate (n : Nat) :
    countAccepts (List.replicate n BridgeEvent.accept) = n := by
  induction n with
  | zero => rfl
  | succ n ih => simpa [List.replicate, countAccepts] using ih

/-- C7 is false as stated over *every* event sequence: `next_connection_id`
is a `usize` and `fetch_add` wraps, so after `2 ^ 64` accepts the counter
returns to `0` and the identifier `0` is allocated a second time — the
allocation order is then neither strictly increasing nor reuse-free. -/
theorem bridge_ids_wrap_counterexample :
    ¬ ((allocatedIds MCPBridge.new
          (List.replicate (USIZE_MOD + 1) BridgeEvent.accept)).Pairwise
        (· < ·) ∧
      (allocatedIds MCPBridge.new
          (List.replicate (USIZE_MOD + 1) BridgeEvent.accept)).Nodup) := by
  rintro ⟨hp, -⟩
  have e : allocatedIds MCPBridge.new
      (List.replicate (USIZE_MOD + 1) BridgeEvent.accept) =
      (List.range (USIZE_MOD + 1)).map (fun i => (0 + i) % USIZE_MOD) := by
    rw [show MCPBridge.new =
        { connections := [], next_connection_id := 0 } from rfl,
      allocatedIds_closed_form _ [] 0 usize_mod_pos, countAccepts_replicate]
  rw [e] at hp
  have hlen : ((List.range (USIZE_MOD + 1)).map
      (fun i => (0 + i) % USIZE_MOD)).length = USIZE_MOD + 1 := by
    rw [List.length_map, List.length_range]
  have h0 : 0 < ((List.range (USIZE_MOD + 1)).map
      (fun i => (0 + i) % USIZE_MOD)).length := by omega
  have hN : USIZE_MOD < ((List.range (USIZE_MOD + 1)).map
      (fun i => (0 + i) % USIZE_MOD)).length := by omega
  have hlt := List.pairwise_iff_get.mp hp ⟨0, h0⟩ ⟨USIZE_MOD, hN⟩
    (Fin.mk_lt_mk.mpr usize_mod_pos)
  rw [List.get_eq_getElem, List.get_eq_getElem] at hlt
  simp only [List.getElem_map, List.getElem_range] at hlt
  rw [Nat.zero_add, Nat.zero_add, Nat.zero_mod, Nat.mod_self] at hlt
  exact Nat.lt_irrefl 0 hlt

/-- C7 amended.  As long as at most `2 ^ 64` identifiers are allocated in
total (the `usize` counter does not wrap — far beyond the spec's 10,000
accept/disconnect cycles), the identifiers allocated by the bridge are
strictly increasing in allocation order and never reused, across every
sequence of accept and disconnect events. -/
theorem bridge_ids_strictly_increasing (evs : List BridgeEvent)
    (h : countAccepts evs ≤ USIZE_MOD) :
    (allocatedIds MCPBridge.new evs).Pairwise (· < ·) ∧
      (allocatedIds MCPBridge.new evs).Nodup := by
  have e : allocatedIds MCPBridge.new evs =
      (List.range (countAccepts evs)).map (fun i => (0 + i) % USIZE_MOD) := by
    rw [show MCPBridge.new =
        { connections := [], next_connection_id := 0 } from rfl]
    exact allocatedIds_closed_form evs [] 0 usize_mod_pos
  have hid : (List.range (countAccepts evs)).map
      (fun i => (0 + i) % USIZE_MOD) = List.range (countAccepts evs) := by
    have : ∀ a ∈ List.range (countAccepts evs),
        (0 + a) % USIZE_MOD = id a := by
      intro a ha
      have halt : a < countAccepts evs := List.mem_range.mp ha
      show (0 + a) % USIZE_MOD = a
      rw [Nat.zero_add]
      exact Nat.mod_eq_of_lt (by omega)
    rw [List.map_congr_left this, List.map_id]
  rw [e, hid]
  exact ⟨List.pairwise_lt_range _, List.nodup_range _⟩

/-- Witness for the amended C7: a concrete accept/disconnect/accept sequence
allocates the identifiers `[0, 1]` — strictly increasing and without
reuse — and its accept count is within the bound. -/
theorem bridge_ids_strictly_increasing_witness :
    countAccepts [BridgeEvent.accept, BridgeEvent.disconnect 0,
        BridgeEvent.accept] ≤ USIZE_MOD ∧
    (allocatedIds MCPBridge.new [BridgeEvent.accept, BridgeEvent.disconnect 0,
        BridgeEvent.accept]).Pairwise (· < ·) ∧
    (allocatedIds MCPBridge.new [BridgeEvent.accept, BridgeEvent.disconnect 0,
        BridgeEvent.accept]).Nodup := by
  have h := bridge_ids_strictly_increasing
    [BridgeEvent.accept, BridgeEvent.disconnect 0, BridgeEvent.accept]
    (by decide)
  exact ⟨by decide, h.1, h.2⟩

/-! ## C8: wire-codec round trip.  Digit lemmas. -/

theorem digitVal_digitChar : ∀ d < 10, digitVal (digitChar d) = d := by decide

theorem isDigit_digitChar : ∀ d < 10, (digitChar d).isDigit = true := by
  decide

theorem natDigitsRev_digits :
    ∀ (n : Nat), ∀ c ∈ natDigitsRev n, c.isDigit = true := by
  intro n
  induction n using Nat.strong_induction_on with
  | _ n ih =>
    cases n with
    | zero => intro c hc; simp [natDigitsRev] at hc
    | succ m =>
      intro c hc
      simp only [natDigitsRev] at hc
      rcases List.mem_cons.mp hc with h | h
      · rw [h]; exact isDigit_digitChar _ (Nat.mod_lt _ (by omega))
      · exact ih ((m + 1) / 10)
          (Nat.div_lt_self (Nat.succ_pos m) (by omega)) c h

theorem valRev_natDigitsRev : ∀ n : Nat, valRev (natDigitsRev n) = n := by
  intro n
  induction n using Nat.strong_induction_on with
  | _ n ih =>
    cases n with
    | zero => simp [natDigitsRev, valRev]
    | succ m =>
      have hdiv : (m + 1) / 10 < m + 1 :=
        Nat.div_lt_self (Nat.succ_pos m) (by omega)
      simp only [natDigitsRev, valRev]
      rw [ih _ hdiv, digitVal_digitChar _ (Nat.mod_lt _ (by omega))]
      omega

theorem foldl_digits_reverse (l : List Char) : ∀ a : Nat,
    (l.reverse).foldl (fun a c => a * 10 + digitVal c) a =
      a * 10 ^ l.length + valRev l := by
  induction l with
  | nil => intro a; simp [valRev]
  | cons c cs ih =>
    intro a
    rw [List.reverse_cons, List.foldl_append, ih a]
    simp only [List.foldl_cons, List.foldl_nil, valRev, List.length_cons]
    ring

theorem digitsToNat_natDigits (n : Nat) : digitsToNat (natDigits n) = n := by
  by_cases h : n = 0
  · subst h; rfl
  · rw [show natDigits n = (natDigitsRev n).reverse from by
      simp [natDigits, h]]
    show ((natDigitsRev n).reverse).foldl
      (fun a c => a * 10 + digitVal c) 0 = n
    rw [foldl_digits_reverse (natDigitsRev n) 0, valRev_natDigitsRev]
    simp

theorem natDigits_ne_nil (n : Nat) : natDigits n ≠ [] := by
  by_cases h : n = 0
  · subst h; simp [natDigits]
  · rw [show natDigits n = (natDigitsRev n).reverse from by
      simp [natDigits, h]]
    cases n with
    | zero => exact absurd rfl h
    | succ m => simp [natDigitsRev]

theorem natDigits_digits (n : Nat) : ∀ c ∈ natDigits n, c.isDigit = true := by
  by_cases h : n = 0
  · subst h
    intro c hc
    simp [natDigits] at hc
    rw [hc]; decide
  · rw [show natDigits n = (natDigitsRev n).reverse from by
      simp [natDigits, h]]
    intro c hc
    exact natDigitsRev_digits n c (List.mem_reverse.mp hc)

theorem natDigits_cons (n : Nat) :
    ∃ d ds, natDigits n = d :: ds ∧ d.isDigit = true := by
  cases hnd : natDigits n with
  | nil => exact absurd hnd (natDigits_ne_nil n)
  | cons d ds =>
    refine ⟨d, ds, rfl, natDigits_digits n d ?_⟩
    rw [hnd]
    exact List.mem_cons_self d ds

theorem takeDigits_append : ∀ (ds rest : List Char),
    (∀ c ∈ ds, c.isDigit = true) → NoDigitHead rest →
    takeDigits (ds ++ rest) = (ds, rest) := by
  intro ds
  induction ds with
  | nil =>
    intro rest _ hnd
    cases rest with
    | nil => rfl
    | cons c t =>
      have hc : c.isDigit = false := hnd
      simp [takeDigits, hc]
  | cons d ds' ih =>
    intro rest hall hnd
    have hd : d.isDigit = true := hall d (List.mem_cons_self d ds')
    have hrec := ih rest (fun c hc => hall c (List.mem_cons_of_mem d hc)) hnd
    simp [takeDigits, hd, hrec]

theorem parseNat_natDigits (n : Nat) (rest : List Char)
    (hnd : NoDigitHead rest) :
    parseNat (natDigits n ++ rest) = .ok (n, rest) := by
  obtain ⟨d, ds, hds, hdig⟩ := natDigits_cons n
  have htd : takeDigits (natDigits n ++ rest) = (natDigits n, rest) :=
    takeDigits_append _ _ (natDigits_digits n) hnd
  unfold parseNat
  rw [htd, hds]
  show Except.ok (digitsToNat (d :: ds), rest) = _
  rw [← hds, digitsToNat_natDigits]

theorem parseInt_intRender (i : Int) (rest : List Char)
    (hnd : NoDigitHead rest) :
    parseInt (intRender i ++ rest) = .ok (i, rest) := by
  by_cases hi : i < 0
  · rw [show intRender i = '-' :: natDigits i.natAbs from by
      simp [intRender, hi]]
    show (match parseNat (natDigits i.natAbs ++ rest) with
      | .ok (n, r) => Except.ok (-(n : Int), r)
      | .error e => Except.error e) = _
    rw [parseNat_natDigits _ _ hnd]
    show Except.ok (-((i.natAbs : Nat) : Int), rest) = _
    have hn : -((i.natAbs : Nat) : Int) = i := by omega
    rw [hn]
  · obtain ⟨d, ds, hds, hdig⟩ := natDigits_cons i.natAbs
    have hir : intRender i = d :: ds := by
      rw [show intRender i = natDigits i.natAbs from by simp [intRender, hi],
        hds]
    rw [hir]
    show parseInt (d :: (ds ++ rest)) = _
    have hdm : ¬ d = '-' := by
      intro he; rw [he] at hdig; exact absurd hdig (by decide)
    simp only [parseInt]
    rw [if_neg hdm]
    rw [show d :: (ds ++ rest) = natDigits i.natAbs ++ rest from by
      rw [hds]; rfl]
    rw [parseNat_natDigits _ _ hnd]
    show Except.ok (((i.natAbs : Nat) : Int), rest) = _
    have hn : ((i.natAbs : Nat) : Int) = i := by omega
    rw [hn]

/-! String-escaping lemmas. -/

theorem hexVal_hexDigit : ∀ d < 16, hexVal (hexDigit d) = d := by decide

theorem isHex_hexDigit : ∀ d < 16, isHex (hexDigit d) = true := by decide

theorem psb_close (rest : List Char) :
    parseStringBody ('"' :: rest) = .ok ([], rest) := by
  rw [parseStringBody.eq_def]
  rfl

theorem psb_esc_quote (X : List Char) :
    parseStringBody ('\\' :: '"' :: X) = consFirst '"' (parseStringBody X) := by
  rw [parseStringBody.eq_def]
  rfl

theorem psb_esc_backslash (X : List Char) :
    parseStringBody ('\\' :: '\\' :: X) =
      consFirst '\\' (parseStringBody X) := by
  rw [parseStringBody.eq_def]
  rfl

theorem psb_esc_b (X : List Char) :
    parseStringBody ('\\' :: 'b' :: X) =
      consFirst '\x08' (parseStringBody X) := by
  rw [parseStringBody.eq_def]
  rfl

theorem psb_esc_t (X : List Char) :
    parseStringBody ('\\' :: 't' :: X) =
      consFirst '\t' (parseStringBody X) := by
  rw [parseStringBody.eq_def]
  rfl

theorem psb_esc_n (X : List Char) :
    parseStringBody ('\\' :: 'n' :: X) =
      consFirst '\n' (parseStringBody X) := by
  rw [parseStringBody.eq_def]
  rfl

theorem psb_esc_f (X : List Char) :
    parseStringBody ('\\' :: 'f' :: X) =
      consFirst '\x0c' (parseStringBody X) := by
  rw [parseStringBody.eq_def]
  rfl

theorem psb_esc_r (X : List Char) :
    parseStringBody ('\\' :: 'r' :: X) =
      consFirst '\r' (parseStringBody X) := by
  rw [parseStringBody.eq_def]
  rfl

theorem psb_esc_u (hd1 hd2 : Char) (X : List Char)
    (ha : isHex hd1 = true) (hb : isHex hd2 = true) :
    parseStringBody ('\\' :: 'u' :: '0' :: '0' :: hd1 :: hd2 :: X) =
      consFirst (Char.ofNat
        (((hexVal '0' * 16 + hexVal '0') * 16 + hexVal hd1) * 16 +
          hexVal hd2)) (parseStringBody X) := by
  have hcond : (isHex '0' && isHex '0' && isHex hd1 && isHex hd2) = true := by
    rw [ha, hb]
    rfl
  rw [parseStringBody.eq_def]
  show (if (isHex '0' && isHex '0' && isHex hd1 && isHex hd2) = true then
      consFirst (Char.ofNat
        (((hexVal '0' * 16 + hexVal '0') * 16 + hexVal hd1) * 16 +
          hexVal hd2)) (parseStringBody X)
    else Except.error "bad unicode escape") = _
  rw [if_pos hcond]

theorem psb_plain (c : Char) (X : List Char) (h1 : ¬ c = '"')
    (h2 : ¬ c = '\\') :
    parseStringBody (c :: X) = consFirst c (parseStringBody X) := by
  rw [parseStringBody.eq_def]
  split
  · next heq => exact absurd heq (by simp)
  · next c' rest' heq =>
    injection heq with hc hX
    subst hc; subst hX
    rw [if_neg h1, if_neg h2]

theorem parseStringBody_escapeList : ∀ (l rest : List Char),
    parseStringBody (escapeList l ++ ('"' :: rest)) = .ok (l, rest) := by
  intro l
  induction l with
  | nil => intro rest; exact psb_close rest
  | cons c cs ih =>
    intro rest
    rw [show escapeList (c :: cs) = escapeChar c ++ escapeList cs from rfl,
      List.append_assoc]
    by_cases h1 : c = '"'
    · subst h1
      rw [show escapeChar '"' = ['\\', '"'] from rfl]
      show parseStringBody
        ('\\' :: '"' :: (escapeList cs ++ ('"' :: rest))) = _
      rw [psb_esc_quote, ih rest]
      rfl
    by_cases h2 : c = '\\'
    · subst h2
      rw [show escapeChar '\\' = ['\\', '\\'] from rfl]
      show parseStringBody
        ('\\' :: '\\' :: (escapeList cs ++ ('"' :: rest))) = _
      rw [psb_esc_backslash, ih rest]
      rfl
    by_cases h3 : c = '\x08'
    · subst h3
      rw [show escapeChar '\x08' = ['\\', 'b'] from rfl]
      show parseStringBody
        ('\\' :: 'b' :: (escapeList cs ++ ('"' :: rest))) = _
      rw [psb_esc_b, ih rest]
      rfl
    by_cases h4 : c = '\t'
    · subst h4
      rw [show escapeChar '\t' = ['\\', 't'] from rfl]
      show parseStringBody
        ('\\' :: 't' :: (escapeList cs ++ ('"' :: rest))) = _
      rw [psb_esc_t, ih rest]
      rfl
    by_cases h5 : c = '\n'
    · subst h5
      rw [show escapeChar '\n' = ['\\', 'n'] from rfl]
      show parseStringBody
        ('\\' :: 'n' :: (escapeList cs ++ ('"' :: rest))) = _
      rw [psb_esc_n, ih rest]
      rfl
    by_cases h6 : c = '\x0c'
    · subst h6
      rw [show escapeChar '\x0c' = ['\\', 'f'] from rfl]
      show parseStringBody
        ('\\' :: 'f' :: (escapeList cs ++ ('"' :: rest))) = _
      rw [psb_esc_f, ih rest]
      rfl
    by_cases h7 : c = '\r'
    · subst h7
      rw [show escapeChar '\r' = ['\\', 'r'] from rfl]
      show parseStringBody
        ('\\' :: 'r' :: (escapeList cs ++ ('"' :: rest))) = _
      rw [psb_esc_r, ih rest]
      rfl
    by_cases h8 : c.toNat < 32
    · have hesc : escapeChar c = ['\\', 'u', '0', '0',
          hexDigit (c.toNat / 16), hexDigit (c.toNat % 16)] := by
        simp [escapeChar, h1, h2, h3, h4, h5, h6, h7, h8]
      have ha : isHex (hexDigit (c.toNat / 16)) = true :=
        isHex_hexDigit _ (by omega)
      have hb : isHex (hexDigit (c.toNat % 16)) = true :=
        isHex_hexDigit _ (Nat.mod_lt _ (by omega))
      have hch : Char.ofNat (((hexVal '0' * 16 + hexVal '0') * 16 +
          hexVal (hexDigit (c.toNat / 16))) * 16 +
          hexVal (hexDigit (c.toNat % 16))) = c := by
        rw [hexVal_hexDigit _ (by omega),
          hexVal_hexDigit _ (Nat.mod_lt _ (by omega)),
          show hexVal '0' = 0 from rfl,
          show ((0 * 16 + 0) * 16 + c.toNat / 16) * 16 + c.toNat % 16 =
            c.toNat from by omega, Char.ofNat_toNat]
      rw [hesc]
      show parseStringBody ('\\' :: 'u' :: '0' :: '0' ::
        hexDigit (c.toNat / 16) :: hexDigit (c.toNat % 16) ::
        (escapeList cs ++ ('"' :: rest))) = _
      rw [psb_esc_u _ _ _ ha hb, hch, ih rest]
      rfl
    · have hesc : escapeChar c = [c] := by
        simp [escapeChar, h1, h2, h3, h4, h5, h6, h7, h8]
      rw [hesc]
      show parseStringBody (c :: (escapeList cs ++ ('"' :: rest))) = _
      rw [psb_plain c _ h1 h2, ih rest]
      rfl

/-! Fuel-bound lemmas: a value's `jsize` never exceeds the length of its
rendering. -/

mutual

theorem jsize_le_render : (v : Json) → jsize v ≤ (render v).length
  | .null => by simp [jsize, render]
  | .bool b => by cases b <;> simp [jsize, render]
  | .num n => by
    have hne : natDigits n.natAbs ≠ [] := natDigits_ne_nil _
    have hlen : 1 ≤ (natDigits n.natAbs).length := by
      cases hh : natDigits n.natAbs with
      | nil => exact absurd hh hne
      | cons d ds => simp
    by_cases hn : n < 0 <;> simp [jsize, render, intRender, hn] <;> omega
  | .str s => by simp [jsize, render]
  | .arr xs => by
    have h := jsizeElems_le_render xs
    simp only [jsize, render, List.length_cons, List.length_append,
      List.length_singleton]
    omega
  | .obj fs => by
    have h := jsizeMembers_le_render fs
    simp only [jsize, render, List.length_cons, List.length_append,
      List.length_singleton]
    omega

theorem jsizeElems_le_render : (xs : List Json) →
    jsizeElems xs ≤ 1 + (renderElems xs).length
  | [] => by simp [jsizeElems]
  | [x] => by
    have h := jsize_le_render x
    simp only [jsizeElems, renderElems]
    omega
  | x :: y :: t => by
    have h1 := jsize_le_render x
    have h2 := jsizeElems_le_render (y :: t)
    simp only [jsizeElems, renderElems, List.length_append,
      List.length_cons] at h2 ⊢
    omega

theorem jsizeMembers_le_render : (fs : List (String × Json)) →
    jsizeMembers fs ≤ 1 + (renderMembers fs).length
  | [] => by simp [jsizeMembers]
  | [(k, v)] => by
    have h := jsize_le_render v
    simp only [jsizeMembers, renderMembers, renderMember, List.length_cons,
      List.length_append]
    omega
  | (k, v) :: m :: t => by
    have h1 := jsize_le_render v
    have h2 := jsizeMembers_le_render (m :: t)
    simp only [jsizeMembers, renderMembers, renderMember, List.length_cons,
      List.length_append] at h2 ⊢
    omega

end

theorem jsize_pos : ∀ v : Json, 1 ≤ jsize v := by
  intro v
  cases v <;> simp [jsize]

/-! Head-shape and delimiter lemmas. -/

theorem delim_noDigitHead (rest : List Char) (h : Delim rest) :
    NoDigitHead rest := by
  cases rest with
  | nil => trivial
  | cons c t =>
    have h' : c = ',' ∨ c = ']' ∨ c = '\x7d' := h
    show c.isDigit = false
    rcases h' with h | h | h <;> (subst h; decide)

theorem digit_char_cases (c : Char) (h : c.isDigit = true) :
    c = '0' ∨ c = '1' ∨ c = '2' ∨ c = '3' ∨ c = '4' ∨ c = '5' ∨ c = '6' ∨
      c = '7' ∨ c = '8' ∨ c = '9' := by
  simp [Char.isDigit] at h
  obtain ⟨h1, h2⟩ := h
  have h1' : 48 ≤ c.toNat := h1
  have h2' : c.toNat ≤ 57 := h2
  have hc := (Char.ofNat_toNat c).symm
  have hv : c.toNat = 48 ∨ c.toNat = 49 ∨ c.toNat = 50 ∨ c.toNat = 51 ∨
      c.toNat = 52 ∨ c.toNat = 53 ∨ c.toNat = 54 ∨ c.toNat = 55 ∨
      c.toNat = 56 ∨ c.toNat = 57 := by omega
  rcases hv with hv | hv | hv | hv | hv | hv | hv | hv | hv | hv <;>
    rw [hv] at hc
  · exact Or.inl hc
  · exact Or.inr (Or.inl hc)
  · exact Or.inr (Or.inr (Or.inl hc))
  · exact Or.inr (Or.inr (Or.inr (Or.inl hc)))
  · exact Or.inr (Or.inr (Or.inr (Or.inr (Or.inl hc))))
  · exact Or.inr (Or.inr (Or.inr (Or.inr (Or.inr (Or.inl hc)))))
  · exact Or.inr (Or.inr (Or.inr (Or.inr (Or.inr (Or.inr (Or.inl hc))))))
  · exact Or.inr (Or.inr (Or.inr (Or.inr (Or.inr (Or.inr (Or.inr
      (Or.inl hc)))))))
  · exact Or.inr (Or.inr (Or.inr (Or.inr (Or.inr (Or.inr (Or.inr (Or.inr
      (Or.inl hc))))))))
  · exact Or.inr (Or.inr (Or.inr (Or.inr (Or.inr (Or.inr (Or.inr (Or.inr
      (Or.inr hc))))))))

theorem parseValue_digit_head (fuel : Nat) (c : Char) (X : List Char)
    (hc : c.isDigit = true) :
    parseValue (fuel + 1) (c :: X) =
      (match parseInt (c :: X) with
        | .ok (i, r) => Except.ok (Json.num i, r)
        | .error m => Except.error m) := by
  rcases digit_char_cases c hc with
    rfl | rfl | rfl | rfl | rfl | rfl | rfl | rfl | rfl | rfl <;> rfl

theorem render_head (v : Json) : ∃ d ds, render v = d :: ds ∧
    (d = 'n' ∨ d = 't' ∨ d = 'f' ∨ d = '"' ∨ d = '[' ∨ d = '\x7b' ∨
      d = '-' ∨ d.isDigit = true) := by
  cases v with
  | null => exact ⟨'n', ['u', 'l', 'l'], by simp [render], Or.inl rfl⟩
  | bool b =>
    cases b with
    | false =>
      exact ⟨'f', ['a', 'l', 's', 'e'], by simp [render],
        Or.inr (Or.inr (Or.inl rfl))⟩
    | true =>
      exact ⟨'t', ['r', 'u', 'e'], by simp [render], Or.inr (Or.inl rfl)⟩
  | num n =>
    by_cases hn : n < 0
    · exact ⟨'-', natDigits n.natAbs, by simp [render, intRender, hn],
        Or.inr (Or.inr (Or.inr (Or.inr (Or.inr (Or.inr (Or.inl rfl))))))⟩
    · obtain ⟨d, ds, hds, hdig⟩ := natDigits_cons n.natAbs
      refine ⟨d, ds, ?_, Or.inr (Or.inr (Or.inr (Or.inr (Or.inr (Or.inr
        (Or.inr hdig))))))⟩
      simp [render, intRender, hn, hds]
  | str s =>
    exact ⟨'"', escapeList s.data ++ ['"'], by simp [render],
      Or.inr (Or.inr (Or.inr (Or.inl rfl)))⟩
  | arr xs =>
    exact ⟨'[', renderElems xs ++ [']'], by simp [render],
      Or.inr (Or.inr (Or.inr (Or.inr (Or.inl rfl))))⟩
  | obj fs =>
    exact ⟨'\x7b', renderMembers fs ++ ['\x7d'], by simp [render],
      Or.inr (Or.inr (Or.inr (Or.inr (Or.inr (Or.inl rfl)))))⟩

theorem vhead_ne_closer (d : Char)
    (h : d = 'n' ∨ d = 't' ∨ d = 'f' ∨ d = '"' ∨ d = '[' ∨ d = '\x7b' ∨
      d = '-' ∨ d.isDigit = true) : ¬ d = ']' := by
  intro he
  subst he
  rcases h with h | h | h | h | h | h | h | h <;> exact absurd h (by decide)

/-- The number step of the value parser: a rendered integer followed by a
non-digit parses back to itself. -/
theorem parseValue_num (i : Int) (fuel : Nat) (rest : List Char)
    (hnd : NoDigitHead rest) :
    parseValue (fuel + 1) (intRender i ++ rest) = .ok (.num i, rest) := by
  by_cases hi : i < 0
  · rw [show intRender i = '-' :: natDigits i.natAbs from by
      simp [intRender, hi]]
    show (match parseInt ('-' :: (natDigits i.natAbs ++ rest)) with
      | .ok (n, r) => Except.ok (Json.num n, r)
      | .error m => Except.error m) = _
    rw [show ('-' : Char) :: (natDigits i.natAbs ++ rest) =
        intRender i ++ rest from by simp [intRender, hi]]
    rw [parseInt_intRender i rest hnd]
  · obtain ⟨d, ds, hds, hdig⟩ := natDigits_cons i.natAbs
    have hir : intRender i = d :: ds := by
      rw [show intRender i = natDigits i.natAbs from by simp [intRender, hi],
        hds]
    rw [hir]
    show parseValue (fuel + 1) (d :: (ds ++ rest)) = _
    rw [parseValue_digit_head fuel d (ds ++ rest) hdig]
    rw [show d :: (ds ++ rest) = intRender i ++ rest from by rw [hir]; rfl]
    rw [parseInt_intRender i rest hnd]

/-- Round trip of the JSON layer: for every fuel at least the value's
`jsize`, parsing the rendering (followed by a delimiter or nothing) returns
exactly the value and the follower, for values, array element lists, and
object member lists simultaneously. -/
theorem parse_render_all : ∀ fuel : Nat,
    (∀ (v : Json) (rest : List Char), jsize v ≤ fuel → Delim rest →
      parseValue fuel (render v ++ rest) = .ok (v, rest)) ∧
    (∀ (x : Json) (t : List Json) (rest : List Char),
      jsizeElems (x :: t) ≤ fuel →
      parseElems fuel (renderElems (x :: t) ++ (']' :: rest)) =
        .ok (x :: t, rest)) ∧
    (∀ (k : String) (w : Json) (t : List (String × Json)) (rest : List Char),
      jsizeMembers ((k, w) :: t) ≤ fuel →
      parseMembers fuel (renderMembers ((k, w) :: t) ++ ('\x7d' :: rest)) =
        .ok ((k, w) :: t, rest)) := by
  intro fuel
  induction fuel with
  | zero =>
    refine ⟨?_, ?_, ?_⟩
    · intro v rest hs _
      exact absurd hs (by have := jsize_pos v; omega)
    · intro x t rest hs
      simp only [jsizeElems] at hs
      exact absurd hs (by omega)
    · intro k w t rest hs
      simp only [jsizeMembers] at hs
      exact absurd hs (by omega)
  | succ fuel ih =>
    obtain ⟨ihv, ihe, ihm⟩ := ih
    refine ⟨?_, ?_, ?_⟩
    · intro v rest hs hd
      cases v with
      | null =>
        rw [show render Json.null = "null".data from by simp [render]]
        rfl
      | bool b =>
        cases b with
        | true =>
          rw [show render (Json.bool true) = "true".data from by
            simp [render]]
          rfl
        | false =>
          rw [show render (Json.bool false) = "false".data from by
            simp [render]]
          rfl
      | num n =>
        rw [show render (Json.num n) = intRender n from by simp [render]]
        exact parseValue_num n fuel rest (delim_noDigitHead rest hd)
      | str s =>
        rw [show render (Json.str s) = '"' :: (escapeList s.data ++ ['"'])
          from by simp [render]]
        show (match parseStringBody ((escapeList s.data ++ ['"']) ++ rest)
          with
          | .ok (s', r) => Except.ok (Json.str (String.mk s'), r)
          | .error m => Except.error m) = _
        rw [show (escapeList s.data ++ ['"']) ++ rest =
            escapeList s.data ++ ('"' :: rest) from by
          rw [List.append_assoc]; rfl]
        rw [parseStringBody_escapeList]
      | arr xs =>
        cases xs with
        | nil =>
          rw [show render (Json.arr []) = ['[', ']'] from by
            simp [render, renderElems]]
          rfl
        | cons x t =>
          rw [show render (Json.arr (x :: t)) =
              '[' :: (renderElems (x :: t) ++ [']']) from by simp [render]]
          rw [show ('[' :: (renderElems (x :: t) ++ [']'])) ++ rest =
              '[' :: (renderElems (x :: t) ++ (']' :: rest)) from by simp]
          obtain ⟨d, ds, hds, hvh⟩ := render_head x
          obtain ⟨Z, hZ⟩ : ∃ Z, renderElems (x :: t) = d :: Z := by
            cases t with
            | nil => exact ⟨ds, by simp [renderElems, hds]⟩
            | cons y t2 =>
              exact ⟨ds ++ (',' :: renderElems (y :: t2)),
                by simp [renderElems, hds]⟩
          rw [hZ]
          show (match d :: (Z ++ (']' :: rest)) with
            | ']' :: r => Except.ok (Json.arr [], r)
            | _ =>
              match parseElems fuel (d :: (Z ++ (']' :: rest))) with
              | .ok (xs, r) => Except.ok (Json.arr xs, r)
              | .error m => Except.error m) = _
          split
          · next r heq =>
            injection heq with hh1 hh2
            exact absurd hh1 (vhead_ne_closer d hvh)
          · have hfold : d :: (Z ++ (']' :: rest)) =
                renderElems (x :: t) ++ (']' :: rest) := by rw [hZ]; rfl
            rw [hfold, ihe x t rest (by simp only [jsize] at hs; omega)]
      | obj fs =>
        cases fs with
        | nil =>
          rw [show render (Json.obj []) = ['\x7b', '\x7d'] from by
            simp [render, renderMembers]]
          rfl
        | cons kv t =>
          obtain ⟨k, w⟩ := kv
          rw [show render (Json.obj ((k, w) :: t)) =
              '\x7b' :: (renderMembers ((k, w) :: t) ++ ['\x7d']) from by
            simp [render]]
          rw [show ('\x7b' :: (renderMembers ((k, w) :: t) ++ ['\x7d'])) ++
              rest =
              '\x7b' :: (renderMembers ((k, w) :: t) ++ ('\x7d' :: rest))
            from by simp]
          obtain ⟨Z, hZ⟩ : ∃ Z, renderMembers ((k, w) :: t) = '"' :: Z := by
            cases t with
            | nil =>
              exact ⟨escapeList k.data ++ ('"' :: (':' :: render w)),
                by simp [renderMembers, renderMember]⟩
            | cons m t2 =>
              exact ⟨(escapeList k.data ++ ('"' :: (':' :: render w))) ++
                (',' :: renderMembers (m :: t2)),
                by simp [renderMembers, renderMember]⟩
          rw [hZ]
          show (match parseMembers fuel ('"' :: (Z ++ ('\x7d' :: rest))) with
            | .ok (fs, r) => Except.ok (Json.obj fs, r)
            | .error m => Except.error m) = _
          have hfold : ('"' : Char) :: (Z ++ ('\x7d' :: rest)) =
              renderMembers ((k, w) :: t) ++ ('\x7d' :: rest) := by
            rw [hZ]; rfl
          rw [hfold, ihm k w t rest (by simp only [jsize] at hs; omega)]
    · intro x t rest hsz
      cases t with
      | nil =>
        rw [show renderElems [x] = render x from by simp [renderElems]]
        show (match parseValue fuel (render x ++ (']' :: rest)) with
          | .error m => Except.error m
          | .ok (v, r) =>
            match r with
            | ',' :: r2 =>
              match parseElems fuel r2 with
              | .ok (vs, r3) => Except.ok (v :: vs, r3)
              | .error m => Except.error m
            | ']' :: r2 => Except.ok ([v], r2)
            | _ => Except.error "expected comma or bracket") = _
        have hx : jsize x ≤ fuel := by
          simp only [jsizeElems] at hsz; omega
        rw [ihv x (']' :: rest) hx (Or.inr (Or.inl rfl))]
        rfl
      | cons y t2 =>
        rw [show renderElems (x :: y :: t2) =
            render x ++ (',' :: renderElems (y :: t2)) from by
          simp [renderElems]]
        rw [show (render x ++ (',' :: renderElems (y :: t2))) ++
            (']' :: rest) =
            render x ++ (',' :: (renderElems (y :: t2) ++ (']' :: rest)))
          from by simp]
        show (match parseValue fuel
            (render x ++ (',' :: (renderElems (y :: t2) ++ (']' :: rest))))
          with
          | .error m => Except.error m
          | .ok (v, r) =>
            match r with
            | ',' :: r2 =>
              match parseElems fuel r2 with
              | .ok (vs, r3) => Except.ok (v :: vs, r3)
              | .error m => Except.error m
            | ']' :: r2 => Except.ok ([v], r2)
            | _ => Except.error "expected comma or bracket") = _
        have hx : jsize x ≤ fuel := by
          simp only [jsizeElems] at hsz; omega
        have hyt : jsizeElems (y :: t2) ≤ fuel := by
          simp only [jsizeElems] at hsz ⊢; omega
        rw [ihv x (',' :: (renderElems (y :: t2) ++ (']' :: rest))) hx
          (Or.inl rfl)]
        show (match parseElems fuel (renderElems (y :: t2) ++ (']' :: rest))
          with
          | .ok (vs, r3) => Except.ok (x :: vs, r3)
          | .error m => Except.error m) = _
        rw [ihe y t2 rest hyt]
    · intro k w t rest hsz
      cases t with
      | nil =>
        rw [show renderMembers [(k, w)] = renderMember k w from by
          simp [renderMembers]]
        rw [show renderMember k w ++ ('\x7d' :: rest) =
            '"' :: (escapeList k.data ++
              ('"' :: (':' :: (render w ++ ('\x7d' :: rest))))) from by
          simp [renderMember]]
        show (match parseStringBody (escapeList k.data ++
            ('"' :: (':' :: (render w ++ ('\x7d' :: rest))))) with
          | .error m => Except.error m
          | .ok (kk, r) =>
            match r with
            | ':' :: r2 =>
              match parseValue fuel r2 with
              | .error m => Except.error m
              | .ok (v, r3) =>
                match r3 with
                | ',' :: r4 =>
                  match parseMembers fuel r4 with
                  | .ok (fs, r5) =>
                    Except.ok ((String.mk kk, v) :: fs, r5)
                  | .error m => Except.error m
                | '\x7d' :: r4 => Except.ok ([(String.mk kk, v)], r4)
                | _ => Except.error "expected comma or brace"
            | _ => Except.error "expected colon") = _
        rw [parseStringBody_escapeList k.data
          (':' :: (render w ++ ('\x7d' :: rest)))]
        show (match parseValue fuel (render w ++ ('\x7d' :: rest)) with
          | .error m => Except.error m
          | .ok (v, r3) =>
            match r3 with
            | ',' :: r4 =>
              match parseMembers fuel r4 with
              | .ok (fs, r5) =>
                Except.ok ((String.mk k.data, v) :: fs, r5)
              | .error m => Except.error m
            | '\x7d' :: r4 => Except.ok ([(String.mk k.data, v)], r4)
            | _ => Except.error "expected comma or brace") = _
        have hw : jsize w ≤ fuel := by
          simp only [jsizeMembers] at hsz; omega
        rw [ihv w ('\x7d' :: rest) hw (Or.inr (Or.inr rfl))]
        rfl
      | cons m t2 =>
        obtain ⟨k2, w2⟩ := m
        rw [show renderMembers ((k, w) :: (k2, w2) :: t2) =
            renderMember k w ++ (',' :: renderMembers ((k2, w2) :: t2))
          from by simp [renderMembers]]
        rw [show (renderMember k w ++
            (',' :: renderMembers ((k2, w2) :: t2))) ++ ('\x7d' :: rest) =
            '"' :: (escapeList k.data ++ ('"' :: (':' :: (render w ++
              (',' :: (renderMembers ((k2, w2) :: t2) ++
                ('\x7d' :: rest))))))) from by simp [renderMember]]
        show (match parseStringBody (escapeList k.data ++
            ('"' :: (':' :: (render w ++ (',' ::
              (renderMembers ((k2, w2) :: t2) ++ ('\x7d' :: rest))))))) with
          | .error m => Except.error m
          | .ok (kk, r) =>
            match r with
            | ':' :: r2 =>
              match parseValue fuel r2 with
              | .error m => Except.error m
              | .ok (v, r3) =>
                match r3 with
                | ',' :: r4 =>
                  match parseMembers fuel r4 with
                  | .ok (fs, r5) =>
                    Except.ok ((String.mk kk, v) :: fs, r5)
                  | .error m => Except.error m
                | '\x7d' :: r4 => Except.ok ([(String.mk kk, v)], r4)
                | _ => Except.error "expected comma or brace"
            | _ => Except.error "expected colon") = _
        rw [parseStringBody_escapeList k.data
          (':' :: (render w ++ (',' ::
            (renderMembers ((k2, w2) :: t2) ++ ('\x7d' :: rest)))))]
        show (match parseValue fuel (render w ++ (',' ::
            (renderMembers ((k2, w2) :: t2) ++ ('\x7d' :: rest)))) with
          | .error m => Except.error m
          | .ok (v, r3) =>
            match r3 with
            | ',' :: r4 =>
              match parseMembers fuel r4 with
              | .ok (fs, r5) =>
                Except.ok ((String.mk k.data, v) :: fs, r5)
              | .error m => Except.error m
            | '\x7d' :: r4 => Except.ok ([(String.mk k.data, v)], r4)
            | _ => Except.error "expected comma or brace") = _
        have hw : jsize w ≤ fuel := by
          simp only [jsizeMembers] at hsz; omega
        have hrest : jsizeMembers ((k2, w2) :: t2) ≤ fuel := by
          simp only [jsizeMembers] at hsz ⊢; omega
        rw [ihv w (',' :: (renderMembers ((k2, w2) :: t2) ++
          ('\x7d' :: rest))) hw (Or.inl rfl)]
        show (match parseMembers fuel
            (renderMembers ((k2, w2) :: t2) ++ ('\x7d' :: rest)) with
          | .ok (fs, r5) => Except.ok ((String.mk k.data, w) :: fs, r5)
          | .error m => Except.error m) = _
        rw [ihm k2 w2 t2 rest hrest]

/-- C8.  For every `MCPRequest` value — every combination of app identifier,
protocol name, action name and structured payload, including the empty
payload — encoding it to bytes with the wire encoding
(`MCPRequest::into_bytes`, i.e. `serde_json::to_vec`) and decoding those
bytes back yields a value equal to the original. -/
theorem mcp_request_roundtrip (r : MCPRequest) :
    (MCPRequest.into_bytes r).bind MCPRequest.from_bytes = Except.ok r := by
  show MCPRequest.from_bytes (render r.toJson) = Except.ok r
  have hj : jsize r.toJson ≤ (render r.toJson).length + 1 :=
    le_trans (jsize_le_render r.toJson) (Nat.le_succ _)
  have hp := (parse_render_all ((render r.toJson).length + 1)).1 r.toJson []
    hj trivial
  rw [List.append_nil] at hp
  unfold MCPRequest.from_bytes
  rw [hp]
  rfl

end Port
